import Mathlib

/-!
Verification of the critical-growth analysis pipeline
(`analyze_critical_growth.py`): rolling-median smoothing, local log-log
slope estimation, persistence-based threshold detection, exponential and
power-law least-squares fits in log space, AIC-based model selection, and
the cross-dataset consistency summary.

Numbers are modelled as real numbers (the idealisation of IEEE floats).
`np.inf` / `-np.inf` appearing in AIC values are modelled with `EReal`.
Calls that raise a Python exception (e.g. `np.gradient` on an array with
fewer than two elements, `np.pad` in edge mode on an empty array) are
modelled by `Option`, with `none` standing for the raised exception.
-/

namespace CriticalGrowth

/-- Insert a real into a sorted list, keeping it sorted (ascending). -/
noncomputable def insertAsc (x : ℝ) : List ℝ → List ℝ
  | [] => [x]
  | y :: ys => if x ≤ y then x :: y :: ys else y :: insertAsc x ys

/-- Insertion sort of a list of reals, ascending. -/
noncomputable def sortAsc : List ℝ → List ℝ
  | [] => []
  | x :: xs => insertAsc x (sortAsc xs)

/-- Model of `np.median` on a non-empty one-dimensional array: sort, take
the middle element for odd length, the average of the two middle elements
for even length.  (In the pipeline it is only applied to windows of length
`window ≥ 2`.) -/
noncomputable def npMedian (l : List ℝ) : ℝ :=
  let s := sortAsc l
  if l.length % 2 = 1 then s.getD (l.length / 2) 0
  else (s.getD (l.length / 2 - 1) 0 + s.getD (l.length / 2) 0) / 2

/-- Model of `rolling_median(a, window)` (lines 62-70).  For `window <= 1`
it returns a copy of the input.  Otherwise it edge-pads by `window // 2` on
both sides and takes the median of each `window`-length slice.  `np.pad`
with `mode="edge"` raises `ValueError` on an empty array, which is modelled
by `none`. -/
noncomputable def rolling_median (a : List ℝ) (window : ℤ) : Option (List ℝ) :=
  if window ≤ 1 then some a
  else if a.length = 0 then none
  else
    let pad : ℕ := (window / 2).toNat
    let padded := List.replicate pad a.headI ++ a ++ List.replicate pad (a.getLastD 0)
    some ((List.range a.length).map fun i => npMedian ((padded.drop i).take window.toNat))

/-- Model of `np.gradient` with unit spacing on a one-dimensional array:
forward difference at the first point, backward at the last, central
elsewhere.  `np.gradient` raises `ValueError` when the array has fewer than
two elements (`"at least (edge_order + 1) elements are required"`), which
is modelled by `none`. -/
noncomputable def npGradient (l : List ℝ) : Option (List ℝ) :=
  if l.length < 2 then none
  else some ((List.range l.length).map fun i =>
    if i = 0 then l.getD 1 0 - l.getD 0 0
    else if i = l.length - 1 then l.getD (l.length - 1) 0 - l.getD (l.length - 2) 0
    else (l.getD (i + 1) 0 - l.getD (i - 1) 0) / 2)

/-- Model of `compute_local_log_slope(x, y, smooth_window)` (lines 73-80):
base-10 logs of both axes, central-difference gradients, elementwise
quotient with the `where=dlx != 0, out=0` guard of `np.divide`, then
rolling-median smoothing. -/
noncomputable def compute_local_log_slope (x y : List ℝ) (smooth_window : ℤ) :
    Option (List ℝ) :=
  let lx := x.map (Real.logb 10)
  let ly := y.map (Real.logb 10)
  match npGradient ly, npGradient lx with
  | some dly, some dlx =>
      rolling_median (List.zipWith (fun a b => if b = 0 then 0 else a / b) dly dlx)
        smooth_window
  | _, _ => none

/-- The scan loop of `detect_threshold` (lines 88-96): walk the slope
profile left to right with a run counter of consecutive points whose slope
is `≥ slope_cutoff`; the counter resets to zero below the cutoff, and the
first time it reaches `persistence` the scan returns
`current index - persistence + 1`. -/
noncomputable def detectScanGo (cutoff : ℝ) (persistence : ℕ) :
    List ℝ → ℕ → ℕ → Option ℕ
  | [], _, _ => none
  | v :: rest, i, count =>
    if cutoff ≤ v then
      if persistence ≤ count + 1 then some (i + 1 - persistence)
      else detectScanGo cutoff persistence rest (i + 1) (count + 1)
    else detectScanGo cutoff persistence rest (i + 1) 0

/-- Tail of the model of `np.argmax`: first index of the maximum value. -/
noncomputable def argmaxGo : List ℝ → ℕ → ℕ → ℝ → ℕ
  | [], _, best, _ => best
  | v :: rest, i, best, bestVal =>
    if bestVal < v then argmaxGo rest (i + 1) i v
    else argmaxGo rest (i + 1) best bestVal

/-- Model of `np.argmax` on a non-empty array: index of the first
occurrence of the maximum. -/
noncomputable def argmaxIdx : List ℝ → ℕ
  | [] => 0
  | v :: rest => argmaxGo rest 1 0 v

/-- Model of `detect_threshold(x, y, slope_cutoff, persistence,
smooth_window)` (lines 83-98): compute the smoothed slope profile, scan
for the first persistent run, and otherwise fall back to
`int(np.argmax(s)) if len(s) else 0`.  `none` models the exception raised
by `np.gradient` on curves with fewer than two points. -/
noncomputable def detect_threshold (x y : List ℝ) (slope_cutoff : ℝ)
    (persistence : ℕ) (smooth_window : ℤ) : Option ℕ :=
  match compute_local_log_slope x y smooth_window with
  | none => none
  | some s =>
    match detectScanGo slope_cutoff persistence s 0 0 with
    | some r => some r
    | none => some (if s.length = 0 then 0 else argmaxIdx s)

/-- Record produced by the fitters (`FitResult` dataclass, lines 101-108).
The AIC lives in `EReal` because the source assigns it `np.inf` for small
samples and `np.log(0.0)` produces `-inf`. -/
structure FitResult where
  model : String
  param : ℝ
  intercept : ℝ
  r2 : ℝ
  aic : EReal
  n : ℕ

/-- Determinant of the normal equations of the two-column design
`[1, x]`: `n * Σx² - (Σx)²`. -/
noncomputable def olsDet (xs : List ℝ) : ℝ :=
  (xs.length : ℝ) * (xs.map fun v => v ^ 2).sum - xs.sum ^ 2

/-- Closed form of `np.linalg.lstsq` for the design matrix
`np.vstack([ones, xs]).T` against response `ys`, returning
`(intercept, slope)`.  When the normal-equation determinant is nonzero
this is the unique least-squares solution; when it is zero (all `xs`
equal, or empty input) `lstsq` returns the minimum-norm least-squares
solution, whose closed form for this rank-one design is the second
branch. -/
noncomputable def olsBeta (xs ys : List ℝ) : ℝ × ℝ :=
  if olsDet xs = 0 then
    (ys.sum / ((xs.length : ℝ) + (xs.map fun v => v ^ 2).sum),
     xs.sum * ys.sum / ((xs.length : ℝ) * ((xs.length : ℝ) + (xs.map fun v => v ^ 2).sum)))
  else
    ((ys.sum * (xs.map fun v => v ^ 2).sum - xs.sum * (List.zipWith (· * ·) xs ys).sum)
       / olsDet xs,
     ((xs.length : ℝ) * (List.zipWith (· * ·) xs ys).sum - xs.sum * ys.sum) / olsDet xs)

/-- Residual sum of squares of the fitted line: `Σ (yᵢ - (a + b·xᵢ))²`
with `(a, b) = olsBeta xs ys` (lines 116-118 / 133-135). -/
noncomputable def olsRss (xs ys : List ℝ) : ℝ :=
  (List.zipWith (fun xi yi => (yi - ((olsBeta xs ys).1 + (olsBeta xs ys).2 * xi)) ^ 2)
    xs ys).sum

/-- The AIC line `aic = n * np.log(rss / n) + 2 * k if n > 2 else np.inf`
with `k = 2` (lines 120-121 / 137-138).  For `n > 2` and `rss = 0`,
`np.log(0.0)` is `-inf` and `n * (-inf) + 4 = -inf`; the `rss` argument is
a sum of squares, hence never negative. -/
noncomputable def fitAic (n : ℕ) (rss : ℝ) : EReal :=
  if 2 < n then
    (if rss = 0 then ⊥ else (((n : ℝ) * Real.log (rss / (n : ℝ)) + 2 * 2 : ℝ) : EReal))
  else ⊤

/-- The R² lines: `tss = Σ (y - mean y)²; r2 = 1 - rss/tss if tss > 0 else
0.0` (lines 122-123 / 139-140). -/
noncomputable def fitR2 (xs ys : List ℝ) : ℝ :=
  let tss := (ys.map fun v => (v - ys.sum / (ys.length : ℝ)) ^ 2).sum
  if 0 < tss then 1 - olsRss xs ys / tss else 0

/-- Model of `fit_exponential(x, y)` (lines 111-124): ordinary least
squares of `ln y` against `[1, x]`, reporting slope `b` as the parameter. -/
noncomputable def fit_exponential (x y : List ℝ) : FitResult :=
  { model := "exp"
    param := (olsBeta x (y.map Real.log)).2
    intercept := (olsBeta x (y.map Real.log)).1
    r2 := fitR2 x (y.map Real.log)
    aic := fitAic x.length (olsRss x (y.map Real.log))
    n := x.length }

/-- Model of `fit_powerlaw(x, y)` (lines 127-141): ordinary least squares
of `ln y` against `[1, ln x]`, reporting slope `d` as the parameter. -/
noncomputable def fit_powerlaw (x y : List ℝ) : FitResult :=
  { model := "pow"
    param := (olsBeta (x.map Real.log) (y.map Real.log)).2
    intercept := (olsBeta (x.map Real.log) (y.map Real.log)).1
    r2 := fitR2 (x.map Real.log) (y.map Real.log)
    aic := fitAic x.length (olsRss (x.map Real.log) (y.map Real.log))
    n := x.length }

/-- Model of the selection line `best = fe if fe.aic < fp.aic else fp`
(line 173). -/
noncomputable def selectFit (fe fp : FitResult) : FitResult :=
  if fe.aic < fp.aic then fe else fp

/-- Model of `mu = float(np.mean(params)) if len(params) else np.nan`
(line 273); `none` models NaN. -/
noncomputable def muParams (l : List ℝ) : Option ℝ :=
  if l.length ≠ 0 then some (l.sum / (l.length : ℝ)) else none

/-- Model of `sigma = float(np.std(params, ddof=1)) if len(params) > 1
else np.nan` (line 274): the sample standard deviation with `n - 1`
divisor. -/
noncomputable def sigmaParams (l : List ℝ) : Option ℝ :=
  if 1 < l.length then
    some (Real.sqrt ((l.map fun v => (v - l.sum / (l.length : ℝ)) ^ 2).sum
      / ((l.length : ℝ) - 1)))
  else none

/-- Model of `cov = float(sigma / mu) if (mu and not np.isnan(mu) and not
np.isnan(sigma)) else np.nan` (line 275): the guard requires `mu` truthy
(nonzero; NaN is truthy in Python) and both operands non-NaN. -/
noncomputable def covParams (l : List ℝ) : Option ℝ :=
  match muParams l, sigmaParams l with
  | some m, some s => if m = 0 then none else some (s / m)
  | _, _ => none

/-- The consistency-analyzer block of `main` (lines 272-276): mean, sample
standard deviation and coefficient of variation of the selected
parameters. -/
noncomputable def summarize (l : List ℝ) : Option ℝ × Option ℝ × Option ℝ :=
  (muParams l, sigmaParams l, covParams l)

/-! ### Small-sample AIC (C5) and the selector tie-break (C1) -/

/-- C5: for every input slice of length `n ≤ 2` (including exactly 2
points), both `fit_exponential` and `fit_powerlaw` return a `FitResult`
whose AIC is `+∞` — a definite `EReal` value, not NaN and not an
exception. -/
theorem small_sample_aic_is_top (x y : List ℝ) (h : x.length ≤ 2) :
    (fit_exponential x y).aic = ⊤ ∧ (fit_powerlaw x y).aic = ⊤ := by
  have hn : ¬ 2 < x.length := by omega
  constructor <;> simp [fit_exponential, fit_powerlaw, fitAic, hn]

theorem small_sample_aic_is_top_witness :
    (fit_exponential ([1, 2] : List ℝ) [3, 4]).aic = ⊤ ∧
    (fit_powerlaw ([1, 2] : List ℝ) [3, 4]).aic = ⊤ :=
  small_sample_aic_is_top [1, 2] [3, 4] (by simp)

/-- C1 counterexample: a two-point slice gives both fits AIC `+∞`; the
AICs are exactly equal, yet the selector `fe if fe.aic < fp.aic else fp`
returns the power-law fit, not the exponential one as the claim states. -/
theorem select_equal_aic_counterexample :
    (fit_exponential ([1, 2] : List ℝ) [1, 1]).aic =
      (fit_powerlaw ([1, 2] : List ℝ) [1, 1]).aic ∧
    (fit_exponential ([1, 2] : List ℝ) [1, 1]).model = "exp" ∧
    (selectFit (fit_exponential ([1, 2] : List ℝ) [1, 1])
      (fit_powerlaw ([1, 2] : List ℝ) [1, 1])).model = "pow" := by
  refine ⟨?_, rfl, ?_⟩
  · simp [fit_exponential, fit_powerlaw, fitAic]
  · simp [selectFit, fit_exponential, fit_powerlaw, fitAic]

/-- C1 amended: the selector chooses the fit with strictly lower AIC, and
whenever the power-law AIC is less than or equal to the exponential AIC —
in particular when the two are exactly equal, including both `+∞` — it
chooses the power-law fit. -/
theorem select_lower_aic_tie_powerlaw (fe fp : FitResult) :
    (fe.aic < fp.aic → selectFit fe fp = fe) ∧
    (fp.aic ≤ fe.aic → selectFit fe fp = fp) := by
  constructor
  · intro h; simp [selectFit, h]
  · intro h; simp [selectFit, not_lt.2 h]

theorem select_lower_aic_tie_powerlaw_witness :
    selectFit ⟨"exp", 0, 0, 0, ⊤, 2⟩ ⟨"pow", 0, 0, 0, ⊤, 2⟩ =
      (⟨"pow", 0, 0, 0, ⊤, 2⟩ : FitResult) ∧
    selectFit ⟨"exp", 0, 0, 0, ⊥, 3⟩ ⟨"pow", 0, 0, 0, ⊤, 2⟩ =
      (⟨"exp", 0, 0, 0, ⊥, 3⟩ : FitResult) :=
  ⟨(select_lower_aic_tie_powerlaw _ _).2 (le_refl _),
   (select_lower_aic_tie_powerlaw _ _).1 bot_lt_top⟩

/-! ### Degenerate curves (C2) and the smoother contract (C6) -/

/-- C2: on curves with 0 or 1 points, `np.gradient` raises `ValueError`
("at least 2 elements are required"), so `detect_threshold` propagates an
exception (modelled by `none`) instead of returning index 0.  The code's
own fallback `int(np.argmax(s)) if len(s) else 0` shows index 0 was the
intent for an empty profile, but it is unreachable. -/
theorem detect_threshold_raises_on_short_curves :
    detect_threshold ([1] : List ℝ) [1] 1 3 3 = none ∧
    detect_threshold ([] : List ℝ) [] 1 3 3 = none := by
  constructor <;> rfl

/-- C6 counterexample: `np.pad(a, ..., mode="edge")` raises `ValueError`
on an empty array, so `rolling_median([], 3)` raises (modelled `none`)
instead of returning an empty sequence of the same length. -/
theorem rolling_median_empty_counterexample :
    rolling_median ([] : List ℝ) 3 = none := by
  rfl

/-- C6 amended: for every `w ≤ 1`, `rolling_median` returns the input
unchanged (for every `v`, including the empty one); and for every
non-empty `v` and every integer `w` it returns a sequence of the same
length as `v`. -/
theorem rolling_median_identity_and_length (a : List ℝ) (w : ℤ) :
    (w ≤ 1 → rolling_median a w = some a) ∧
    (a ≠ [] → ∃ out, rolling_median a w = some out ∧ out.length = a.length) := by
  constructor
  · intro h; simp [rolling_median, h]
  · intro ha
    by_cases h : w ≤ 1
    · exact ⟨a, by simp [rolling_median, h], rfl⟩
    · have hlen : ¬ a.length = 0 := by simpa [List.length_eq_zero] using ha
      unfold rolling_median
      rw [if_neg h, if_neg hlen]
      exact ⟨_, rfl, by simp⟩

theorem rolling_median_identity_and_length_witness :
    rolling_median ([4, 7] : List ℝ) 1 = some [4, 7] ∧
    ∃ out, rolling_median ([1, 2, 3] : List ℝ) 3 = some out ∧
      out.length = ([1, 2, 3] : List ℝ).length :=
  ⟨(rolling_median_identity_and_length [4, 7] 1).1 (by norm_num),
   (rolling_median_identity_and_length [1, 2, 3] 3).2 (by simp)⟩

/-! ### Consistency analyzer (C7) -/

/-- C7: the consistency analyzer reports the arithmetic mean whenever at
least one value is present; the sample standard deviation (characterised
by `s ≥ 0` and `s² · (n-1) = Σ (v - mean)²`, i.e. the `n-1` divisor),
reported as NaN (`none`) for fewer than 2 values; and the coefficient of
variation `std/mean`, reported as NaN whenever the mean is 0 or either
operand is NaN. -/
theorem summarize_spec (l : List ℝ) :
    (1 ≤ l.length → ∃ m, (summarize l).1 = some m ∧ m * (l.length : ℝ) = l.sum) ∧
    (l.length < 2 → (summarize l).2.1 = none) ∧
    (2 ≤ l.length → ∃ s, (summarize l).2.1 = some s ∧ 0 ≤ s ∧
      s ^ 2 * ((l.length : ℝ) - 1) =
        (l.map fun v => (v - l.sum / (l.length : ℝ)) ^ 2).sum) ∧
    (∀ m s, (summarize l).1 = some m → (summarize l).2.1 = some s → m ≠ 0 →
      (summarize l).2.2 = some (s / m)) ∧
    ((summarize l).1 = some 0 ∨ (summarize l).1 = none ∨ (summarize l).2.1 = none →
      (summarize l).2.2 = none) := by
  refine ⟨?_, ?_, ?_, ?_, ?_⟩
  · intro h
    have hn : l.length ≠ 0 := by omega
    have hc : (l.length : ℝ) ≠ 0 := Nat.cast_ne_zero.2 hn
    exact ⟨l.sum / (l.length : ℝ), by simp [summarize, muParams, hn],
      div_mul_cancel₀ _ hc⟩
  · intro h
    have hn : ¬ 1 < l.length := by omega
    simp [summarize, sigmaParams, hn]
  · intro h
    have hn : 1 < l.length := by omega
    have hd : (0 : ℝ) < (l.length : ℝ) - 1 := by
      have : (2 : ℝ) ≤ (l.length : ℝ) := by exact_mod_cast h
      linarith
    have hnum : 0 ≤ (l.map fun v => (v - l.sum / (l.length : ℝ)) ^ 2).sum := by
      refine List.sum_nonneg ?_
      intro v hv
      obtain ⟨u, _, rfl⟩ := List.mem_map.1 hv
      exact sq_nonneg _
    have harg : 0 ≤ (l.map fun v => (v - l.sum / (l.length : ℝ)) ^ 2).sum
        / ((l.length : ℝ) - 1) := div_nonneg hnum (le_of_lt hd)
    refine ⟨Real.sqrt ((l.map fun v => (v - l.sum / (l.length : ℝ)) ^ 2).sum
      / ((l.length : ℝ) - 1)), by simp [summarize, sigmaParams, hn],
      Real.sqrt_nonneg _, ?_⟩
    rw [Real.sq_sqrt harg]
    exact div_mul_cancel₀ _ (ne_of_gt hd)
  · intro m s hm hs hmne
    have hm' : muParams l = some m := hm
    have hs' : sigmaParams l = some s := hs
    show covParams l = some (s / m)
    unfold covParams
    rw [hm', hs']
    simp [hmne]
  · intro h
    show covParams l = none
    unfold covParams
    rcases h with h | h | h
    · rw [show muParams l = some 0 from h]
      cases hs : sigmaParams l <;> simp
    · rw [show muParams l = none from h]
    · rw [show sigmaParams l = none from h]
      cases hm : muParams l <;> simp

theorem summarize_spec_witness :
    (∃ m, (summarize ([1, 3] : List ℝ)).1 = some m ∧
      m * (([1, 3] : List ℝ).length : ℝ) = ([1, 3] : List ℝ).sum) ∧
    (summarize ([5] : List ℝ)).2.1 = none ∧
    (∃ s, (summarize ([1, 3] : List ℝ)).2.1 = some s ∧ 0 ≤ s ∧
      s ^ 2 * ((([1, 3] : List ℝ).length : ℝ) - 1) =
        (([1, 3] : List ℝ).map
          fun v => (v - ([1, 3] : List ℝ).sum / (([1, 3] : List ℝ).length : ℝ)) ^ 2).sum) :=
  ⟨(summarize_spec [1, 3]).1 (by simp),
   (summarize_spec [5]).2.1 (by simp),
   (summarize_spec [1, 3]).2.2.1 (by simp)⟩

/-! ### Zero-residual AIC (C9) -/

/-- Helper: when the response sums to zero and is orthogonal to the
regressor, both branches of the least-squares solution are `(0, 0)`. -/
lemma olsBeta_of_sums_zero (xs ys : List ℝ) (hy : ys.sum = 0)
    (hxy : (List.zipWith (· * ·) xs ys).sum = 0) : olsBeta xs ys = (0, 0) := by
  unfold olsBeta
  split <;> simp [hy, hxy]

/-- Helper: the zipped product sum vanishes on an all-zero response. -/
lemma zipWith_mul_sum_zero (xs ys : List ℝ) (hy : ∀ v ∈ ys, v = 0) :
    (List.zipWith (· * ·) xs ys).sum = 0 := by
  induction xs generalizing ys with
  | nil => simp
  | cons x xs ih =>
    cases ys with
    | nil => simp
    | cons y ys =>
      have hy0 : y = 0 := hy y (by simp)
      have hrest : ∀ v ∈ ys, v = 0 := fun v hv => hy v (by simp [hv])
      simp [hy0, ih ys hrest]

/-- Helper: the sum of squared responses vanishes on an all-zero
response. -/
lemma zipWith_sq_sum_zero (xs ys : List ℝ) (hy : ∀ v ∈ ys, v = 0) :
    (List.zipWith (fun _ yi => yi ^ 2) xs ys).sum = 0 := by
  induction xs generalizing ys with
  | nil => simp
  | cons x xs ih =>
    cases ys with
    | nil => simp
    | cons y ys =>
      have hy0 : y = 0 := hy y (by simp)
      have hrest : ∀ v ∈ ys, v = 0 := fun v hv => hy v (by simp [hv])
      simp [hy0, ih ys hrest]

/-- Helper: the residual sum of squares vanishes on an all-zero
response. -/
lemma olsRss_zero_response (xs ys : List ℝ) (hy : ∀ v ∈ ys, v = 0) :
    olsRss xs ys = 0 := by
  have hb : olsBeta xs ys = (0, 0) :=
    olsBeta_of_sums_zero xs ys (List.sum_eq_zero hy) (zipWith_mul_sum_zero xs ys hy)
  unfold olsRss
  rw [hb]
  simpa using zipWith_sq_sum_zero xs ys hy

/-- C9: for inputs of length `n > 2` on which the regression reproduces
the log-response exactly (residual sum of squares equal to 0), the fits do
not raise and report AIC `= -∞` (`np.log(0.0)` is `-inf`); the `n ≤ 2`
guard is the only guard on the AIC computation. -/
theorem exact_fit_aic_is_bot (x y : List ℝ) (hn : 2 < x.length) :
    (olsRss x (y.map Real.log) = 0 → (fit_exponential x y).aic = ⊥) ∧
    (olsRss (x.map Real.log) (y.map Real.log) = 0 → (fit_powerlaw x y).aic = ⊥) := by
  constructor <;> intro h <;> simp [fit_exponential, fit_powerlaw, fitAic, hn, h]

theorem exact_fit_aic_is_bot_witness :
    (fit_exponential ([0, 1, 2] : List ℝ) [1, 1, 1]).aic = ⊥ ∧
    (fit_powerlaw ([1, 2, 3] : List ℝ) [1, 1, 1]).aic = ⊥ := by
  have hlog : ∀ v ∈ (([1, 1, 1] : List ℝ).map Real.log), v = 0 := by
    simp [Real.log_one]
  constructor
  · exact (exact_fit_aic_is_bot [0, 1, 2] [1, 1, 1] (by simp)).1
      (olsRss_zero_response _ _ hlog)
  · exact (exact_fit_aic_is_bot [1, 2, 3] [1, 1, 1] (by simp)).2
      (olsRss_zero_response _ _ hlog)

/-! ### Characterisation of the threshold scan (C4, C3, C10) -/

/-- A persistent run: `p` consecutive entries of the slope profile `s`
starting at index `j` all lie at or above the cutoff `c`. -/
def runAt (s : List ℝ) (c : ℝ) (p : ℕ) (j : ℕ) : Prop :=
  j + p ≤ s.length ∧ ∀ t, t < p → c ≤ s.getD (j + t) 0

/-- Helper: unpacking `S.drop i = v :: rest`. -/
lemma drop_cons_facts {S : List ℝ} {i : ℕ} {v : ℝ} {rest : List ℝ}
    (h : S.drop i = v :: rest) :
    i < S.length ∧ S.getD i 0 = v ∧ S.drop (i + 1) = rest := by
  have hlen : S.length - i = rest.length + 1 := by
    have := congrArg List.length h
    simpa using this
  refine ⟨by omega, ?_, ?_⟩
  · have h0 : S[i]? = some v := by
      have h1 : (S.drop i)[0]? = some v := by rw [h]; simp
      rwa [List.getElem?_drop, Nat.add_zero] at h1
    simp [List.getD_eq_getElem?_getD, h0]
  · have h2 : (S.drop i).drop 1 = S.drop (i + 1) := List.drop_drop 1 i S
    rw [← h2, h]
    rfl

/-- Helper: soundness and completeness of the scan loop, generalised over
its state.  Starting at offset `i` with run counter `count`, where `count`
records the maximal run of above-cutoff entries ending just before `i` and
no persistent run fits inside the first `i` entries, the scan returns the
least run start `j0`. -/
lemma detectScanGo_eq_some_aux (c : ℝ) (p : ℕ) (hp : 1 ≤ p) (S : List ℝ) (j0 : ℕ)
    (hj0 : runAt S c p j0) (hmin : ∀ j, j < j0 → ¬ runAt S c p j) :
    ∀ (s : List ℝ) (i count : ℕ), S.drop i = s →
      count ≤ i → count < p →
      (∀ t, t < count → c ≤ S.getD (i - 1 - t) 0) →
      (count = i ∨ ¬ c ≤ S.getD (i - 1 - count) 0) →
      (∀ j, j + p ≤ i → ¬ runAt S c p j) →
      detectScanGo c p s i count = some j0 := by
  intro s
  induction s with
  | nil =>
    intro i count hdrop _ _ _ _ hnorun
    exfalso
    have hle : S.length ≤ i := by
      have := congrArg List.length hdrop
      simp at this
      omega
    exact hnorun j0 (le_trans hj0.1 hle) hj0
  | cons v rest ih =>
    intro i count hdrop hci hcp htrail hmax hnorun
    obtain ⟨hi, hv, hrest⟩ := drop_cons_facts hdrop
    simp only [detectScanGo]
    by_cases hab : c ≤ v
    · rw [if_pos hab]
      by_cases hreach : p ≤ count + 1
      · rw [if_pos hreach]
        have hpc : p = count + 1 := by omega
        have hrun : runAt S c p (i - count) := by
          constructor
          · omega
          · intro t ht
            by_cases htc : t < count
            · have h3 := htrail (count - 1 - t) (by omega)
              have heq : i - 1 - (count - 1 - t) = i - count + t := by omega
              rwa [heq] at h3
            · have ht' : t = count := by omega
              have heq : i - count + t = i := by omega
              rw [heq, hv]
              exact hab
        have hminrun : ∀ j, j < i - count → ¬ runAt S c p j := by
          intro j hj
          exact hnorun j (by omega)
        have hj0eq : j0 = i - count := by
          rcases lt_trichotomy j0 (i - count) with h | h | h
          · exact absurd hj0 (hminrun j0 h)
          · exact h
          · exact absurd hrun (hmin _ h)
        rw [hj0eq]
        congr 1
        omega
      · rw [if_neg hreach]
        apply ih (i + 1) (count + 1) hrest (by omega) (by omega)
        · intro t ht
          rcases Nat.eq_zero_or_pos t with rfl | htpos
          · have heq : i + 1 - 1 - 0 = i := by omega
            rw [heq, hv]
            exact hab
          · have h3 := htrail (t - 1) (by omega)
            have heq : i + 1 - 1 - t = i - 1 - (t - 1) := by omega
            rw [heq]
            exact h3
        · rcases hmax with h | h
          · left; omega
          · right
            have heq : i + 1 - 1 - (count + 1) = i - 1 - count := by omega
            rw [heq]
            exact h
        · intro j hj
          by_cases hji : j + p ≤ i
          · exact hnorun j hji
          · have hjp : j + p = i + 1 := by omega
            intro hr
            rcases hmax with hcnt | hnab
            · omega
            · apply hnab
              have h4 := hr.2 (i - 1 - count - j) (by omega)
              have heq : j + (i - 1 - count - j) = i - 1 - count := by omega
              rwa [heq] at h4
    · rw [if_neg hab]
      apply ih (i + 1) 0 hrest (by omega) (by omega)
      · intro t ht; omega
      · right
        have heq : i + 1 - 1 - 0 = i := by omega
        rw [heq, hv]
        exact hab
      · intro j hj
        by_cases hji : j + p ≤ i
        · exact hnorun j hji
        · have hjp : j + p = i + 1 := by omega
          intro hr
          apply hab
          have h4 := hr.2 (p - 1) (by omega)
          have heq : j + (p - 1) = i := by omega
          rw [heq, hv] at h4
          exact h4

/-- Helper: when no persistent run exists anywhere in the profile, the
scan loop returns `none`. -/
lemma detectScanGo_eq_none_aux (c : ℝ) (p : ℕ) (S : List ℝ)
    (hnone : ∀ j, ¬ runAt S c p j) :
    ∀ (s : List ℝ) (i count : ℕ), S.drop i = s → count ≤ i →
      (∀ t, t < count → c ≤ S.getD (i - 1 - t) 0) →
      detectScanGo c p s i count = none := by
  intro s
  induction s with
  | nil => intro i count _ _ _; rfl
  | cons v rest ih =>
    intro i count hdrop hci htrail
    obtain ⟨hi, hv, hrest⟩ := drop_cons_facts hdrop
    simp only [detectScanGo]
    by_cases hab : c ≤ v
    · rw [if_pos hab]
      by_cases hreach : p ≤ count + 1
      · exfalso
        apply hnone (i - count)
        constructor
        · omega
        · intro t ht
          by_cases htc : t < count
          · have h3 := htrail (count - 1 - t) (by omega)
            have heq : i - 1 - (count - 1 - t) = i - count + t := by omega
            rwa [heq] at h3
          · have ht' : t = count := by omega
            have heq : i - count + t = i := by omega
            rw [heq, hv]
            exact hab
      · rw [if_neg hreach]
        apply ih (i + 1) (count + 1) hrest (by omega)
        intro t ht
        rcases Nat.eq_zero_or_pos t with rfl | htpos
        · have heq : i + 1 - 1 - 0 = i := by omega
          rw [heq, hv]
          exact hab
        · have h3 := htrail (t - 1) (by omega)
          have heq : i + 1 - 1 - t = i - 1 - (t - 1) := by omega
          rw [heq]
          exact h3
    · rw [if_neg hab]
      apply ih (i + 1) 0 hrest (by omega)
      intro t ht; omega

/-- The scan from the initial state returns the least persistent-run
start. -/
lemma detectScanGo_eq_some (c : ℝ) (p : ℕ) (hp : 1 ≤ p) (s : List ℝ) (j0 : ℕ)
    (hj0 : runAt s c p j0) (hmin : ∀ j, j < j0 → ¬ runAt s c p j) :
    detectScanGo c p s 0 0 = some j0 := by
  apply detectScanGo_eq_some_aux c p hp s j0 hj0 hmin s 0 0 (List.drop_zero s)
    (le_refl 0) hp
  · intro t ht; omega
  · exact Or.inl rfl
  · intro j hj; omega

/-- The scan from the initial state returns `none` when no persistent run
exists. -/
lemma detectScanGo_eq_none (c : ℝ) (p : ℕ) (s : List ℝ)
    (hnone : ∀ j, ¬ runAt s c p j) :
    detectScanGo c p s 0 0 = none := by
  apply detectScanGo_eq_none_aux c p s hnone s 0 0 (List.drop_zero s) (le_refl 0)
  intro t ht; omega

/-- Converse direction: a successful scan result is the least persistent-run
start. -/
lemma detectScanGo_some_elim (c : ℝ) (p : ℕ) (hp : 1 ≤ p) (s : List ℝ) (r : ℕ)
    (h : detectScanGo c p s 0 0 = some r) :
    runAt s c p r ∧ ∀ j, j < r → ¬ runAt s c p j := by
  by_cases hex : ∃ j, runAt s c p j
  · haveI : DecidablePred (runAt s c p) := Classical.decPred _
    have hfind : runAt s c p (Nat.find hex) := Nat.find_spec hex
    have hmin : ∀ j', j' < Nat.find hex → ¬ runAt s c p j' :=
      fun _ h' => Nat.find_min hex h'
    have hgo := detectScanGo_eq_some c p hp s (Nat.find hex) hfind hmin
    rw [h] at hgo
    have heq : r = Nat.find hex := by injection hgo
    rw [heq]
    exact ⟨hfind, hmin⟩
  · push_neg at hex
    rw [detectScanGo_eq_none c p s hex] at h
    exact absurd h (by simp)

/-- Helper: the argmax accumulator stays below the end of the scanned
range. -/
lemma argmaxGo_lt (l : List ℝ) :
    ∀ (i best : ℕ) (bv : ℝ), best < i → argmaxGo l i best bv < i + l.length := by
  induction l with
  | nil =>
    intro i best bv h
    simpa [argmaxGo] using h
  | cons v rest ih =>
    intro i best bv h
    simp only [argmaxGo, List.length_cons]
    by_cases hlt : bv < v
    · rw [if_pos hlt]
      have := ih (i + 1) i v (by omega)
      omega
    · rw [if_neg hlt]
      have := ih (i + 1) best bv (by omega)
      omega

/-- Helper: `np.argmax` of a non-empty array is a valid index. -/
lemma argmaxIdx_lt (l : List ℝ) (h : l ≠ []) : argmaxIdx l < l.length := by
  cases l with
  | nil => exact absurd rfl h
  | cons v rest =>
    have := argmaxGo_lt rest 1 0 v (by omega)
    simpa [argmaxIdx, List.length_cons] using by omega

/-- Helper: the rolling median of a non-empty list is defined and
preserves length. -/
lemma rolling_median_ne_nil_length (a : List ℝ) (w : ℤ) (ha : a ≠ []) :
    ∃ out, rolling_median a w = some out ∧ out.length = a.length := by
  by_cases h : w ≤ 1
  · exact ⟨a, by simp [rolling_median, h], rfl⟩
  · have hlen : ¬ a.length = 0 := by simpa [List.length_eq_zero] using ha
    unfold rolling_median
    rw [if_neg h, if_neg hlen]
    exact ⟨_, rfl, by simp⟩

/-- Helper: the gradient of a list with at least 2 entries is defined and
preserves length. -/
lemma npGradient_some_length (l : List ℝ) (h : 2 ≤ l.length) :
    ∃ g, npGradient l = some g ∧ g.length = l.length := by
  unfold npGradient
  rw [if_neg (by omega)]
  exact ⟨_, rfl, by simp⟩

/-- Helper: the slope profile of a curve with at least 2 points is defined
and has the curve's length. -/
lemma compute_local_log_slope_some_length (x y : List ℝ) (w : ℤ)
    (hx : 2 ≤ x.length) (hy : y.length = x.length) :
    ∃ s, compute_local_log_slope x y w = some s ∧ s.length = x.length := by
  obtain ⟨gx, hgx, hgxl⟩ :=
    npGradient_some_length (x.map (Real.logb 10)) (by simpa using hx)
  obtain ⟨gy, hgy, hgyl⟩ :=
    npGradient_some_length (y.map (Real.logb 10)) (by simpa [hy] using hx)
  have hz : (List.zipWith (fun a b => if b = 0 then 0 else a / b) gy gx).length
      = x.length := by
    simp [hgxl, hgyl, hy]
  obtain ⟨out, hout, houtl⟩ := rolling_median_ne_nil_length
    (List.zipWith (fun a b => if b = 0 then 0 else a / b) gy gx) w
    (List.length_pos.1 (by omega))
  refine ⟨out, ?_, by omega⟩
  simp only [compute_local_log_slope, hgx, hgy]
  exact hout

/-- C10: on every curve with at least 2 points, for every cutoff, every
`persistence ≥ 1` and every smoothing window, `detect_threshold` returns
an index within bounds, so the post-threshold slice `x[idx:]` is
non-empty. -/
theorem detect_threshold_index_in_range (x y : List ℝ) (c : ℝ) (p : ℕ) (w : ℤ)
    (hp : 1 ≤ p) (hx : 2 ≤ x.length) (hy : y.length = x.length) :
    ∃ i, detect_threshold x y c p w = some i ∧ i < x.length := by
  obtain ⟨s, hs, hsl⟩ := compute_local_log_slope_some_length x y w hx hy
  cases hgo : detectScanGo c p s 0 0 with
  | none =>
    have hne : ¬ s.length = 0 := by omega
    refine ⟨argmaxIdx s, ?_, ?_⟩
    · simp only [detect_threshold, hs, hgo, if_neg hne]
    · have := argmaxIdx_lt s (List.length_pos.1 (by omega))
      omega
  | some r =>
    have hrun := (detectScanGo_some_elim c p hp s r hgo).1
    refine ⟨r, ?_, ?_⟩
    · simp only [detect_threshold, hs, hgo]
    · have := hrun.1
      have := hp
      omega

theorem detect_threshold_index_in_range_witness :
    ∃ i, detect_threshold ([1, 10] : List ℝ) [1, 10] 1 1 1 = some i ∧
      i < ([1, 10] : List ℝ).length :=
  detect_threshold_index_in_range [1, 10] [1, 10] 1 1 1 (by norm_num) (by simp) rfl

/-- C4: the threshold detector scans the smoothed slope profile left to
right with a run counter that resets below the cutoff, and returns
`current index - persistence + 1`, the first point of the first run of
`persistence` consecutive above-cutoff points; equivalently, it returns
the least index `j0` at which a full persistent run starts, so no shorter
run ever determines the result. -/
theorem detect_threshold_first_run (x y : List ℝ) (cutoff : ℝ) (p : ℕ) (w : ℤ)
    (hp : 1 ≤ p) (s : List ℝ) (hs : compute_local_log_slope x y w = some s)
    (j0 : ℕ) (hrun : runAt s cutoff p j0)
    (hleast : ∀ j, j < j0 → ¬ runAt s cutoff p j) :
    detect_threshold x y cutoff p w = some j0 := by
  simp only [detect_threshold, hs, detectScanGo_eq_some cutoff p hp s j0 hrun hleast]

/-- C3 amended: for a fixed curve, persistence `≥ 1` and window, and
cutoffs `c1 ≤ c2`, whenever some persistent run exists at the harder
cutoff `c2` (so the detector does not take the argmax fallback), the index
detected with `c1` is at most the index detected with `c2`. -/
theorem detect_threshold_cutoff_mono (x y : List ℝ) (c1 c2 : ℝ) (p : ℕ) (w : ℤ)
    (hp : 1 ≤ p) (hc : c1 ≤ c2) (s : List ℝ)
    (hs : compute_local_log_slope x y w = some s)
    (hex2 : ∃ j, runAt s c2 p j) :
    ∃ r1 r2, detect_threshold x y c1 p w = some r1 ∧
      detect_threshold x y c2 p w = some r2 ∧ r1 ≤ r2 := by
  haveI : DecidablePred (runAt s c2 p) := Classical.decPred _
  haveI : DecidablePred (runAt s c1 p) := Classical.decPred _
  have hmono : ∀ j, runAt s c2 p j → runAt s c1 p j :=
    fun j hr => ⟨hr.1, fun t ht => le_trans hc (hr.2 t ht)⟩
  have hex1 : ∃ j, runAt s c1 p j := ⟨Nat.find hex2, hmono _ (Nat.find_spec hex2)⟩
  refine ⟨Nat.find hex1, Nat.find hex2, ?_, ?_, ?_⟩
  · simp only [detect_threshold, hs, detectScanGo_eq_some c1 p hp s (Nat.find hex1)
      (Nat.find_spec hex1) (fun _ h' => Nat.find_min hex1 h')]
  · simp only [detect_threshold, hs, detectScanGo_eq_some c2 p hp s (Nat.find hex2)
      (Nat.find_spec hex2) (fun _ h' => Nat.find_min hex2 h')]
  · exact Nat.find_min' hex1 (hmono _ (Nat.find_spec hex2))

/-- A concrete five-point curve (loads are powers of ten, so the log-log
grid is uniform). -/
def loadsX : List ℝ := [1, 10, 10 ^ 2, 10 ^ 3, 10 ^ 4]

/-- Concrete delays chosen so the slope profile is `[5, 0, 2, 2, -5]`: a
single early spike above any cutoff, then a sustained moderate run. -/
def delaysX : List ℝ := [1, 10 ^ 5, 1, 10 ^ 9, 10 ^ 4]

/-- Helper: base-10 log of a power of ten. -/
lemma logb_ten_pow (k : ℕ) : Real.logb 10 ((10 : ℝ) ^ k) = k := by
  rw [Real.logb_pow, Real.logb_self_eq_one (by norm_num)]
  ring

/-- Helper: base-10 logs of the concrete loads. -/
lemma loadsX_logb : loadsX.map (Real.logb 10) = [0, 1, 2, 3, 4] := by
  simp only [loadsX, List.map_cons, List.map_nil, logb_ten_pow, Real.logb_one,
    Real.logb_self_eq_one (show (1 : ℝ) < 10 by norm_num)]
  norm_num

/-- Helper: base-10 logs of the concrete delays. -/
lemma delaysX_logb : delaysX.map (Real.logb 10) = [0, 5, 0, 9, 4] := by
  simp only [delaysX, List.map_cons, List.map_nil, logb_ten_pow, Real.logb_one]
  norm_num

/-- Helper: the unit-spacing gradient of an explicit five-point list. -/
lemma npGradient_five (a b c d e : ℝ) :
    npGradient [a, b, c, d, e] =
      some [b - a, (c - a) / 2, (d - b) / 2, (e - c) / 2, e - d] := by
  unfold npGradient
  norm_num [List.range_succ]

/-- Helper: the smoothed (window 1) slope profile of the concrete curve. -/
lemma slopeX : compute_local_log_slope loadsX delaysX 1 = some [5, 0, 2, 2, -5] := by
  simp only [compute_local_log_slope, loadsX_logb, delaysX_logb, npGradient_five]
  norm_num [rolling_median]

/-- C3 counterexample: on the concrete curve with persistence 2 and window
1, raising the cutoff from 2 to 3 moves the detected threshold from index
2 down to index 0 (the scan finds no run at cutoff 3 and falls back to the
argmax, which sits at the early spike), refuting monotonicity. -/
theorem detect_threshold_mono_counterexample :
    (2 : ℝ) ≤ 3 ∧
    detect_threshold loadsX delaysX 2 2 1 = some 2 ∧
    detect_threshold loadsX delaysX 3 2 1 = some 0 := by
  refine ⟨by norm_num, ?_, ?_⟩
  · simp only [detect_threshold, slopeX]
    norm_num [detectScanGo]
  · simp only [detect_threshold, slopeX]
    norm_num [detectScanGo, argmaxIdx, argmaxGo]

/-- Helper: the moderate run of the concrete slope profile starts at
index 2 for cutoff 2 and persistence 2. -/
lemma runX : runAt [5, 0, 2, 2, -5] 2 2 2 := by
  constructor
  · norm_num
  · intro t ht
    interval_cases t <;> norm_num

/-- Helper: no run of length 2 at cutoff 2 starts before index 2 in the
concrete slope profile. -/
lemma leastX : ∀ j, j < 2 → ¬ runAt [5, 0, 2, 2, -5] 2 2 j := by
  intro j hj hr
  interval_cases j
  · have := hr.2 1 (by norm_num)
    norm_num at this
  · have := hr.2 0 (by norm_num)
    norm_num at this

theorem detect_threshold_first_run_witness :
    detect_threshold loadsX delaysX 2 2 1 = some 2 :=
  detect_threshold_first_run loadsX delaysX 2 2 1 (by norm_num)
    [5, 0, 2, 2, -5] slopeX 2 runX leastX

theorem detect_threshold_cutoff_mono_witness :
    ∃ r1 r2, detect_threshold loadsX delaysX 1 2 1 = some r1 ∧
      detect_threshold loadsX delaysX 2 2 1 = some r2 ∧ r1 ≤ r2 :=
  detect_threshold_cutoff_mono loadsX delaysX 1 2 2 1 (by norm_num) (by norm_num)
    [5, 0, 2, 2, -5] slopeX ⟨2, runX⟩

/-! ### Exact exponential round-trip (C8) -/

/-- Loads 1..20 for the synthetic round-trip scenario. -/
def loads20 : List ℝ :=
  [1, 2, 3, 4, 5, 6, 7, 8, 9, 10, 11, 12, 13, 14, 15, 16, 17, 18, 19, 20]

/-- Noiseless synthetic delays `exp(2 + load/2)`. -/
noncomputable def delays20 : List ℝ := loads20.map fun t => Real.exp (2 + t / 2)

/-- Helper: the log-response of the synthetic data is exactly affine in the
load. -/
lemma delays20_log : delays20.map Real.log =
    [5/2, 3, 7/2, 4, 9/2, 5, 11/2, 6, 13/2, 7,
     15/2, 8, 17/2, 9, 19/2, 10, 21/2, 11, 23/2, 12] := by
  simp only [delays20, loads20, List.map_cons, List.map_nil, Real.log_exp]
  norm_num

/-- Helper: normal-equation determinant of the loads. -/
lemma det20 : olsDet loads20 = 13300 := by
  simp only [olsDet, loads20, List.map_cons, List.map_nil, List.sum_cons,
    List.sum_nil, List.length_cons, List.length_nil]
  norm_num

/-- Helper: the exponential regression on the synthetic data recovers
intercept 2 and slope 1/2 exactly. -/
lemma beta20 : olsBeta loads20 (delays20.map Real.log) = (2, 1/2) := by
  unfold olsBeta
  rw [if_neg (by rw [det20]; norm_num), delays20_log, det20]
  simp only [loads20, List.map_cons, List.map_nil, List.sum_cons, List.sum_nil,
    List.zipWith_cons_cons, List.zipWith_nil_right, List.length_cons,
    List.length_nil, Prod.mk.injEq]
  norm_num

/-- Helper: the exponential regression has zero residual sum of squares on
the synthetic data. -/
lemma rss20 : olsRss loads20 (delays20.map Real.log) = 0 := by
  unfold olsRss
  rw [beta20, delays20_log]
  simp only [loads20, List.zipWith_cons_cons, List.zipWith_nil_right,
    List.sum_cons, List.sum_nil]
  norm_num

/-- Helper: R² of the exponential fit on the synthetic data is exactly 1. -/
lemma r2_20 : fitR2 loads20 (delays20.map Real.log) = 1 := by
  simp only [fitR2]
  rw [rss20, delays20_log]
  simp only [List.map_cons, List.map_nil, List.sum_cons, List.sum_nil,
    List.length_cons, List.length_nil]
  norm_num

/-- Helper: a sum of squared residuals is nonnegative. -/
lemma resid_sum_nonneg (a b : ℝ) (xs ys : List ℝ) :
    0 ≤ (List.zipWith (fun xi yi => (yi - (a + b * xi)) ^ 2) xs ys).sum := by
  induction xs generalizing ys with
  | nil => simp
  | cons x xs ih =>
    cases ys with
    | nil => simp
    | cons y ys =>
      simp only [List.zipWith_cons_cons, List.sum_cons]
      exact add_nonneg (sq_nonneg _) (ih ys)

/-- Helper: when the residual sum of squares is zero, every in-range
residual is zero. -/
lemma sum_sq_resid_zero (a b : ℝ) : ∀ (xs ys : List ℝ),
    (List.zipWith (fun xi yi => (yi - (a + b * xi)) ^ 2) xs ys).sum = 0 →
    ∀ i, i < xs.length → i < ys.length →
    ys.getD i 0 = a + b * xs.getD i 0 := by
  intro xs
  induction xs with
  | nil =>
    intro ys h i hi _
    simp at hi
  | cons x xs ih =>
    intro ys h i hix hiy
    cases ys with
    | nil => simp at hiy
    | cons y ys =>
      simp only [List.zipWith_cons_cons, List.sum_cons] at h
      have h2 := resid_sum_nonneg a b xs ys
      have h1 : (y - (a + b * x)) ^ 2 = 0 := by
        nlinarith [sq_nonneg (y - (a + b * x))]
      have hrest : (List.zipWith (fun xi yi => (yi - (a + b * xi)) ^ 2) xs ys).sum
          = 0 := by
        nlinarith [sq_nonneg (y - (a + b * x))]
      cases i with
      | zero =>
        have h0 : y - (a + b * x) = 0 :=
          pow_eq_zero_iff (two_ne_zero) |>.1 h1
        simp only [List.getD_cons_zero]
        linarith [sub_eq_zero.1 h0]
      | succ i' =>
        simp only [List.getD_cons_succ]
        exact ih ys hrest i' (by simpa using hix) (by simpa using hiy)

/-- Helper: log-load values at indices 0, 1 and 3. -/
lemma logloads_getD :
    (loads20.map Real.log).getD 0 0 = 0 ∧
    (loads20.map Real.log).getD 1 0 = Real.log 2 ∧
    (loads20.map Real.log).getD 3 0 = 2 * Real.log 2 := by
  refine ⟨by simp [loads20], by simp [loads20], ?_⟩
  simp only [loads20, List.map_cons, List.map_nil, List.getD_cons_succ,
    List.getD_cons_zero]
  rw [show (4 : ℝ) = 2 ^ 2 by norm_num, Real.log_pow]
  norm_num

/-- Helper: the power-law regression cannot reproduce the synthetic
exponential data exactly — its residual sum of squares is nonzero
(`2 + x/2` is not affine in `ln x`: compare loads 1, 2 and 4). -/
lemma rssP20 : olsRss (loads20.map Real.log) (delays20.map Real.log) ≠ 0 := by
  intro h
  unfold olsRss at h
  have e0 := sum_sq_resid_zero _ _ _ _ h 0 (by norm_num [loads20])
    (by norm_num [delays20, loads20])
  have e1 := sum_sq_resid_zero _ _ _ _ h 1 (by norm_num [loads20])
    (by norm_num [delays20, loads20])
  have e3 := sum_sq_resid_zero _ _ _ _ h 3 (by norm_num [loads20])
    (by norm_num [delays20, loads20])
  rw [delays20_log] at e0 e1 e3
  rw [logloads_getD.1] at e0
  rw [logloads_getD.2.1] at e1
  rw [logloads_getD.2.2] at e3
  simp only [List.getD_cons_zero, List.getD_cons_succ] at e0 e1 e3
  ring_nf at e0 e1 e3
  nlinarith [e0, e1, e3]

/-- Helper: the exponential AIC on the synthetic data is `-∞`. -/
lemma aic_exp20 : (fit_exponential loads20 delays20).aic = ⊥ := by
  simp only [fit_exponential]
  rw [show (fitAic loads20.length (olsRss loads20 (delays20.map Real.log)))
      = fitAic 20 0 by rw [rss20]; norm_num [loads20]]
  simp [fitAic]

/-- Helper: the exponential AIC beats the power-law AIC on the synthetic
data. -/
lemma aic_lt20 :
    (fit_exponential loads20 delays20).aic < (fit_powerlaw loads20 delays20).aic := by
  rw [aic_exp20]
  have h : (fit_powerlaw loads20 delays20).aic =
      (((loads20.length : ℝ) * Real.log
        (olsRss (loads20.map Real.log) (delays20.map Real.log) / (loads20.length : ℝ))
        + 2 * 2 : ℝ) : EReal) := by
    simp only [fit_powerlaw, fitAic]
    rw [if_pos (show 2 < loads20.length by norm_num [loads20]), if_neg rssP20]
  rw [h]
  exact EReal.bot_lt_coe _

/-- C8: on noiseless synthetic data `delay = exp(2 + 0.5·load)` for
load = 1..20, the exponential fit recovers slope 0.5 and intercept 2
within 1e-6 (in fact exactly), with R² = 1; its AIC is lower than the
power-law AIC on the same data, so the exponential model is selected. -/
theorem fit_roundtrip_exponential :
    |(fit_exponential loads20 delays20).param - 0.5| ≤ 1 / 1000000 ∧
    |(fit_exponential loads20 delays20).intercept - 2| ≤ 1 / 1000000 ∧
    |(fit_exponential loads20 delays20).r2 - 1| ≤ 1 / 1000000 ∧
    (fit_exponential loads20 delays20).aic < (fit_powerlaw loads20 delays20).aic ∧
    selectFit (fit_exponential loads20 delays20) (fit_powerlaw loads20 delays20) =
      fit_exponential loads20 delays20 := by
  have hb : (fit_exponential loads20 delays20).param = 1 / 2 := by
    simp [fit_exponential, beta20]
  have ha : (fit_exponential loads20 delays20).intercept = 2 := by
    simp [fit_exponential, beta20]
  have hr : (fit_exponential loads20 delays20).r2 = 1 := by
    simp [fit_exponential, r2_20]
  refine ⟨?_, ?_, ?_, aic_lt20, ?_⟩
  · rw [hb]; norm_num
  · rw [ha]; norm_num
  · rw [hr]; norm_num
  · simp [selectFit, aic_lt20]

end CriticalGrowth
